import Mathlib

set_option maxRecDepth 2500

/-!
Shallow embedding of the pngme chunk layer: `src/chunk_type.rs` and
`src/chunk.rs`.  Bytes are modelled as `Nat` (with `< 256` bounds carried as
hypotheses where the `u8` type of the source matters), `u32` arithmetic is
`Nat` with explicit `% 2^32` where the source can overflow, and fallible Rust
functions return `Except`; an `Option` whose `none` marks a place where the
source panics is used for the `unwrap` sites of the `Display` and `FromStr`
implementations.
-/

namespace Pngme

/-- The `[u8; 4]` array type: four bytes, as in `ChunkType.value`. -/
structure Bytes4 where
  b0 : Nat
  b1 : Nat
  b2 : Nat
  b3 : Nat
deriving DecidableEq

/-- The four bytes of a `[u8; 4]` in order, as produced by iterating it. -/
def Bytes4.toList (v : Bytes4) : List Nat := [v.b0, v.b1, v.b2, v.b3]

/-- Error of `ChunkType::try_from`: some byte is outside 65–90 and 97–122. -/
inductive CtError where
  | notAsciiLetter
deriving DecidableEq

/-- `ChunkType` from `src/chunk_type.rs`: a validated 4-byte tag. -/
structure ChunkType where
  value : Bytes4
deriving DecidableEq

/-- `ChunkType::is_bytes_all_ascii`: every byte in 65–90 or 97–122. -/
def ChunkType.is_bytes_all_ascii (value : Bytes4) : Bool :=
  value.toList.all (fun x => (65 ≤ x && x ≤ 90) || (97 ≤ x && x ≤ 122))

/-- `ChunkType::is_bytes_reserved_bit_valid`: bit 5 of byte 2 is clear. -/
def ChunkType.is_bytes_reserved_bit_valid (value : Bytes4) : Bool :=
  let third_byte := value.b2
  let bit_5 := third_byte &&& (1 <<< 5)
  bit_5 == 0

/-- `impl TryFrom<[u8;4]> for ChunkType`. -/
def ChunkType.tryFrom (value : Bytes4) : Except CtError ChunkType :=
  if !ChunkType.is_bytes_all_ascii value then
    .error .notAsciiLetter
  else
    .ok ⟨value⟩

/-- `impl FromStr for ChunkType`.  The input string is its UTF-8 byte list.
The source does `s.as_bytes().try_into().unwrap()`, which panics when the
byte count is not 4; `none` models that panic. -/
def ChunkType.from_str (s : List Nat) : Option (Except CtError ChunkType) :=
  match s with
  | [a, b, c, d] => some (ChunkType.tryFrom ⟨a, b, c, d⟩)
  | _ => none

/-- `ChunkType::bytes`. -/
def ChunkType.bytes (t : ChunkType) : Bytes4 := t.value

/-- `ChunkType::is_valid`. -/
def ChunkType.is_valid (t : ChunkType) : Bool :=
  ChunkType.is_bytes_all_ascii t.value && ChunkType.is_bytes_reserved_bit_valid t.value

/-- `ChunkType::is_critical`: bit 5 of byte 0 is clear. -/
def ChunkType.is_critical (t : ChunkType) : Bool :=
  let first_byte := t.value.b0
  let bit_5 := first_byte &&& (1 <<< 5)
  bit_5 == 0

/-- `ChunkType::is_public`: bit 5 of byte 1 is clear. -/
def ChunkType.is_public (t : ChunkType) : Bool :=
  let second_byte := t.value.b1
  let bit_5 := second_byte &&& (1 <<< 5)
  bit_5 == 0

/-- `ChunkType::is_reserved_bit_valid`. -/
def ChunkType.is_reserved_bit_valid (t : ChunkType) : Bool :=
  ChunkType.is_bytes_reserved_bit_valid t.value

/-- `ChunkType::is_safe_to_copy`: bit 5 of byte 3 is set. -/
def ChunkType.is_safe_to_copy (t : ChunkType) : Bool :=
  let fourth_byte := t.value.b3
  let bit_5 := fourth_byte &&& (1 <<< 5)
  bit_5 != 0

/-- Classification of a UTF-8 leading byte, as in Rust `String::from_utf8`
validation: `none` for an invalid leading byte, otherwise the number of
continuation bytes and the allowed range of the first of them (the later
ones are always 128–191). -/
def utf8Start (b : Nat) : Option (Nat × Nat × Nat) :=
  if b ≤ 127 then some (0, 0, 0)
  else if 194 ≤ b && b ≤ 223 then some (1, 128, 191)
  else if b == 224 then some (2, 160, 191)
  else if 225 ≤ b && b ≤ 236 then some (2, 128, 191)
  else if b == 237 then some (2, 128, 159)
  else if 238 ≤ b && b ≤ 239 then some (2, 128, 191)
  else if b == 240 then some (3, 144, 191)
  else if 241 ≤ b && b ≤ 243 then some (3, 128, 191)
  else if b == 244 then some (3, 128, 143)
  else none

/-- One-byte-at-a-time UTF-8 validation: the state is the number of pending
continuation bytes together with the allowed range of the next one. -/
def utf8Run : Nat × Nat × Nat → List Nat → Bool
  | (0, _, _), [] => true
  | (_ + 1, _, _), [] => false
  | (0, _, _), b :: rest =>
    match utf8Start b with
    | none => false
    | some st => utf8Run st rest
  | (k + 1, lo, hi), b :: rest =>
    if lo ≤ b && b ≤ hi then utf8Run (k, 128, 191) rest else false

/-- UTF-8 validity of a byte list, as checked by Rust `String::from_utf8`
(the standard UTF-8 well-formedness table). -/
def isValidUtf8 (l : List Nat) : Bool := utf8Run (0, 0, 0) l

/-- `impl fmt::Display for ChunkType`: `String::from_utf8(bytes).unwrap()`.
`none` models the panic of that `unwrap`; on success the rendered text is the
4 stored bytes. -/
def ChunkType.display (t : ChunkType) : Option (List Nat) :=
  if isValidUtf8 t.value.toList then some t.value.toList else none

/-- One step of the reflected CRC-32 bit loop with the ISO-HDLC polynomial
(reflected form `0xEDB88320`), as computed by the `crc` crate's
`CRC_32_ISO_HDLC` algorithm used in `src/chunk.rs`. -/
def crc32Round (c : Nat) : Nat :=
  if c &&& 1 == 1 then (c >>> 1) ^^^ 0xEDB88320 else c >>> 1

/-- `n` iterations of the CRC-32 bit loop. -/
def crc32Rounds : Nat → Nat → Nat
  | 0, c => c
  | n + 1, c => crc32Rounds n (crc32Round c)

/-- Absorb one input byte into the CRC-32 state. -/
def crc32Update (c b : Nat) : Nat := crc32Rounds 8 (c ^^^ b)

/-- CRC-32 with the ISO-HDLC parameters (init `0xFFFFFFFF`, reflected input
and output, xorout `0xFFFFFFFF`): `CRC.checksum` in `src/chunk.rs`. -/
def crc32 (data : List Nat) : Nat :=
  0xFFFFFFFF ^^^ data.foldl crc32Update 0xFFFFFFFF

/-- `Chunk` from `src/chunk.rs`. -/
structure Chunk where
  length : Nat
  chunk_type : ChunkType
  data : List Nat
  crc : Nat
deriving DecidableEq

/-- The errors of `impl TryFrom<&[u8]> for Chunk`, in the source's order:
fewer than 12 bytes, total length different from `12 + length`, chunk-type
construction failure propagated by `?`, and checksum mismatch. -/
inductive ChunkError where
  | insufficientBytes
  | lengthMismatch
  | invalidChunkType
  | checksumMismatch
deriving DecidableEq

/-- `u32::from_be_bytes`. -/
def u32FromBe (a b c d : Nat) : Nat := ((a * 256 + b) * 256 + c) * 256 + d

/-- `u32::to_be_bytes` of a value below `2^32`. -/
def u32beBytes (n : Nat) : List Nat :=
  [n / 16777216 % 256, n / 65536 % 256, n / 256 % 256, n % 256]

/-- `Chunk::new`: length is the payload byte count and the checksum is
CRC-32 over tag bytes ++ payload bytes. -/
def Chunk.new (chunk_type : ChunkType) (data : List Nat) : Chunk :=
  let length := data.length
  let crc_input := chunk_type.bytes.toList ++ data
  let crc := crc32 crc_input
  ⟨length, chunk_type, data, crc⟩

/-- `Chunk::as_bytes`: length (big-endian) ++ tag bytes ++ payload ++
checksum (big-endian). -/
def Chunk.as_bytes (c : Chunk) : List Nat :=
  u32beBytes c.length ++ c.chunk_type.bytes.toList ++ c.data ++ u32beBytes c.crc

/-- `Chunk::data_as_string`: `String::from_utf8` on a copy of the payload;
the string is modelled by its byte list. -/
def Chunk.data_as_string (c : Chunk) : Except Unit (List Nat) :=
  if isValidUtf8 c.data then .ok c.data else .error ()

/-- `impl fmt::Display for Chunk`: writes the length, the rendered chunk
type, `data_as_string().unwrap()` and the crc.  `none` models a panic of
either `unwrap`; on success the tuple holds the four written pieces. -/
def Chunk.display (c : Chunk) : Option (Nat × List Nat × List Nat × Nat) :=
  match c.chunk_type.display with
  | none => none
  | some t =>
    match c.data_as_string with
    | .error _ => none
    | .ok s => some (c.length, t, s, c.crc)

/-- The body of `impl TryFrom<&[u8]> for Chunk` after the entry conversion
`value.len().try_into::<u32>().unwrap()` has succeeded, so that the `u32`
`bytes_length` equals the list length (`Chunk.try_from` below adds the
panic of that conversion for slices of `2^32` or more bytes).  The
comparison `bytes_length != 12 + length` is `u32` arithmetic in the source,
hence the `% 2^32`.  The iterator `take` calls are rendered with
`List.take`/`List.drop`/`List.getD`; every index is in range whenever it is
reached, because the length check has already forced
`value.length = 12 + length`. -/
def Chunk.tryFrom (value : List Nat) : Except ChunkError Chunk :=
  let bytes_length := value.length
  if bytes_length < 12 then .error .insufficientBytes
  else
    match value with
    | l0 :: l1 :: l2 :: l3 :: t0 :: t1 :: t2 :: t3 :: rest =>
      let length := u32FromBe l0 l1 l2 l3
      if bytes_length ≠ (12 + length) % 4294967296 then .error .lengthMismatch
      else
        match ChunkType.tryFrom ⟨t0, t1, t2, t3⟩ with
        | .error _ => .error .invalidChunkType
        | .ok chunk_type =>
          let data := rest.take length
          let crcTail := rest.drop length
          let crc := u32FromBe (crcTail.getD 0 0) (crcTail.getD 1 0)
            (crcTail.getD 2 0) (crcTail.getD 3 0)
          let crc_input := [t0, t1, t2, t3] ++ data
          if crc32 crc_input ≠ crc then .error .checksumMismatch
          else .ok ⟨length, chunk_type, data, crc⟩
    | _ => .error .insufficientBytes

/-- `impl TryFrom<&[u8]> for Chunk` in full, including the entry conversion
`let bytes_length: u32 = value.len().try_into().unwrap();`: that `unwrap`
panics (modelled as `none`) whenever the slice holds `2^32` or more bytes;
otherwise the body above runs. -/
def Chunk.try_from (value : List Nat) : Option (Except ChunkError Chunk) :=
  if value.length < 4294967296 then some (Chunk.tryFrom value) else none

end Pngme

namespace Pngme

/-! ### Arithmetic helpers for the big-endian `u32` codec -/

theorem xor_left_cancel {a b c : Nat} (h : a ^^^ b = a ^^^ c) : b = c := by
  have := congrArg (fun x => a ^^^ x) h
  simpa [← Nat.xor_assoc, Nat.xor_self, Nat.zero_xor] using this

theorem u32FromBe_lt {a b c d : Nat} (ha : a < 256) (hb : b < 256) (hc : c < 256)
    (hd : d < 256) : u32FromBe a b c d < 4294967296 := by
  unfold u32FromBe
  omega

theorem u32FromBe_u32beBytes {n : Nat} (h : n < 4294967296) :
    u32FromBe (n / 16777216 % 256) (n / 65536 % 256) (n / 256 % 256) (n % 256) = n := by
  unfold u32FromBe
  omega

theorem u32beBytes_u32FromBe {a b c d : Nat} (ha : a < 256) (hb : b < 256) (hc : c < 256)
    (hd : d < 256) : u32beBytes (u32FromBe a b c d) = [a, b, c, d] := by
  unfold u32beBytes u32FromBe
  simp only [List.cons.injEq, and_true]
  omega

theorem u32beBytes_length (n : Nat) : (u32beBytes n).length = 4 := rfl

theorem u32beBytes_lt (n : Nat) : ∀ x ∈ u32beBytes n, x < 256 := by
  intro x hx
  simp [u32beBytes] at hx
  rcases hx with h | h | h | h <;> omega

/-! ### Bounds and injectivity of the CRC-32 state machine -/

theorem xor_lt32 {a b : Nat} (ha : a < 4294967296) (hb : b < 4294967296) :
    a ^^^ b < 4294967296 := by
  have h32 : (4294967296 : Nat) = 2 ^ 32 := by norm_num
  rw [h32] at ha hb ⊢
  exact Nat.xor_lt_two_pow ha hb

theorem crc32Round_lt {c : Nat} (h : c < 4294967296) : crc32Round c < 4294967296 := by
  unfold crc32Round
  rw [Nat.shiftRight_one]
  split
  · exact xor_lt32 (by omega) (by norm_num)
  · omega

theorem crc32Rounds_lt {c : Nat} (n : Nat) (h : c < 4294967296) :
    crc32Rounds n c < 4294967296 := by
  induction n generalizing c with
  | zero => exact h
  | succ n ih => exact ih (crc32Round_lt h)

theorem crc32Update_lt {c b : Nat} (hc : c < 4294967296) (hb : b < 4294967296) :
    crc32Update c b < 4294967296 :=
  crc32Rounds_lt 8 (xor_lt32 hc hb)

theorem crc32_foldl_lt {l : List Nat} {c : Nat} (hc : c < 4294967296)
    (hl : ∀ x ∈ l, x < 4294967296) : l.foldl crc32Update c < 4294967296 := by
  induction l generalizing c with
  | nil => exact hc
  | cons b t ih =>
    exact ih (crc32Update_lt hc (hl b (by simp))) (fun x hx => hl x (by simp [hx]))

theorem crc32_lt {l : List Nat} (hl : ∀ x ∈ l, x < 4294967296) :
    crc32 l < 4294967296 :=
  xor_lt32 (by norm_num) (crc32_foldl_lt (by norm_num) hl)

theorem crc32Round_inj {c1 c2 : Nat} (h1 : c1 < 4294967296) (h2 : c2 < 4294967296)
    (h : crc32Round c1 = crc32Round c2) : c1 = c2 := by
  unfold crc32Round at h
  rw [Nat.shiftRight_one, Nat.shiftRight_one, Nat.and_one_is_mod, Nat.and_one_is_mod] at h
  rcases Nat.mod_two_eq_zero_or_one c1 with p1 | p1 <;>
    rcases Nat.mod_two_eq_zero_or_one c2 with p2 | p2 <;>
    rw [p1, p2] at h <;> simp at h
  · omega
  · exfalso
    have htop := congrArg (fun x => Nat.testBit x 31) h
    simp [Nat.testBit_xor, Nat.testBit_eq_false_of_lt (show c1 / 2 < 2 ^ 31 by omega),
      Nat.testBit_eq_false_of_lt (show c2 / 2 < 2 ^ 31 by omega)] at htop
    exact absurd htop (by decide)
  · exfalso
    have htop := congrArg (fun x => Nat.testBit x 31) h
    simp [Nat.testBit_xor, Nat.testBit_eq_false_of_lt (show c1 / 2 < 2 ^ 31 by omega),
      Nat.testBit_eq_false_of_lt (show c2 / 2 < 2 ^ 31 by omega)] at htop
    exact absurd htop (by decide)
  · omega

theorem crc32Rounds_inj {c1 c2 : Nat} (n : Nat) (h1 : c1 < 4294967296)
    (h2 : c2 < 4294967296) (h : crc32Rounds n c1 = crc32Rounds n c2) : c1 = c2 := by
  induction n generalizing c1 c2 with
  | zero => exact h
  | succ n ih =>
    exact crc32Round_inj h1 h2 (ih (crc32Round_lt h1) (crc32Round_lt h2) h)

theorem crc32Update_inj {c1 c2 b : Nat} (h1 : c1 < 4294967296) (h2 : c2 < 4294967296)
    (hb : b < 4294967296) (h : crc32Update c1 b = crc32Update c2 b) : c1 = c2 := by
  have := crc32Rounds_inj 8 (xor_lt32 h1 hb) (xor_lt32 h2 hb) h
  have := congrArg (fun x => x ^^^ b) this
  simpa [Nat.xor_assoc, Nat.xor_self, Nat.xor_zero] using this

theorem crc32_foldl_inj {l : List Nat} {c1 c2 : Nat} (h1 : c1 < 4294967296)
    (h2 : c2 < 4294967296) (hl : ∀ x ∈ l, x < 4294967296)
    (h : l.foldl crc32Update c1 = l.foldl crc32Update c2) : c1 = c2 := by
  induction l generalizing c1 c2 with
  | nil => exact h
  | cons b t ih =>
    have hb : b < 4294967296 := hl b (by simp)
    have := ih (crc32Update_lt h1 hb) (crc32Update_lt h2 hb)
      (fun x hx => hl x (by simp [hx])) h
    exact crc32Update_inj h1 h2 hb this

/-- CRC-32 separates byte lists that differ in exactly one position. -/
theorem crc32_single_diff {p s : List Nat} {b b' : Nat} (hb : b < 4294967296)
    (hb' : b' < 4294967296) (hne : b ≠ b') (hp : ∀ x ∈ p, x < 4294967296)
    (hs : ∀ x ∈ s, x < 4294967296) :
    crc32 (p ++ b :: s) ≠ crc32 (p ++ b' :: s) := by
  intro h
  unfold crc32 at h
  have h2 := xor_left_cancel h
  rw [List.foldl_append, List.foldl_append] at h2
  simp only [List.foldl_cons] at h2
  set c0 := p.foldl crc32Update 4294967295 with hc0
  have hc0lt : c0 < 4294967296 := crc32_foldl_lt (by norm_num) hp
  have h3 : crc32Update c0 b = crc32Update c0 b' :=
    crc32_foldl_inj (crc32Update_lt hc0lt hb) (crc32Update_lt hc0lt hb') hs h2
  have h4 : c0 ^^^ b = c0 ^^^ b' :=
    crc32Rounds_inj 8 (xor_lt32 hc0lt hb) (xor_lt32 hc0lt hb') h3
  exact hne (xor_left_cancel h4)

end Pngme

namespace Pngme

theorem tryFrom_shape (tb : Bytes4) (data cb : List Nat) (hcb : cb.length = 4)
    (hlen : 12 + data.length < 4294967296) :
    Chunk.tryFrom (u32beBytes data.length ++ tb.toList ++ data ++ cb) =
      if ChunkType.is_bytes_all_ascii tb then
        if crc32 (tb.toList ++ data) ≠
            u32FromBe (cb.getD 0 0) (cb.getD 1 0) (cb.getD 2 0) (cb.getD 3 0) then
          .error .checksumMismatch
        else
          .ok ⟨data.length, ⟨tb⟩, data,
            u32FromBe (cb.getD 0 0) (cb.getD 1 0) (cb.getD 2 0) (cb.getD 3 0)⟩
      else .error .invalidChunkType := by
  have hva : u32beBytes data.length ++ tb.toList ++ data ++ cb =
      data.length / 16777216 % 256 :: data.length / 65536 % 256 ::
      data.length / 256 % 256 :: data.length % 256 ::
      tb.b0 :: tb.b1 :: tb.b2 :: tb.b3 :: (data ++ cb) := by
    simp [u32beBytes, Bytes4.toList]
  rw [hva]
  unfold Chunk.tryFrom
  have hl : (data.length / 16777216 % 256 :: data.length / 65536 % 256 ::
      data.length / 256 % 256 :: data.length % 256 ::
      tb.b0 :: tb.b1 :: tb.b2 :: tb.b3 :: (data ++ cb)).length = 12 + data.length := by
    simp [hcb]
    omega
  rw [hl]
  rw [if_neg (by omega)]
  simp only []
  rw [u32FromBe_u32beBytes (by omega)]
  rw [if_neg (by omega)]
  unfold ChunkType.tryFrom
  have htake : (data ++ cb).take data.length = data := List.take_left data cb
  have hdrop : (data ++ cb).drop data.length = cb := List.drop_left data cb
  by_cases hascii : ChunkType.is_bytes_all_ascii ⟨tb.b0, tb.b1, tb.b2, tb.b3⟩
  · rw [if_neg (by simp [hascii])]
    simp only [hascii, if_true, htake, hdrop]
    rfl
  · rw [if_pos (by simp [hascii])]
    simp [hascii]

end Pngme

namespace Pngme

theorem list_eq_four {l : List Nat} (h : l.length = 4) :
    l = [l.getD 0 0, l.getD 1 0, l.getD 2 0, l.getD 3 0] := by
  match l, h with
  | [a, b, c, d], _ => rfl

theorem tryFrom_ok_inv {value : List Nat} {c : Chunk}
    (h256 : ∀ x ∈ value, x < 256)
    (hok : Chunk.tryFrom value = .ok c) :
    value = c.as_bytes ∧
    c.length = c.data.length ∧
    12 + c.data.length < 4294967296 ∧
    ChunkType.is_bytes_all_ascii c.chunk_type.value = true ∧
    crc32 (c.chunk_type.bytes.toList ++ c.data) = c.crc ∧
    (∀ x ∈ c.data, x < 256) ∧
    c.crc < 4294967296 := by
  rcases value with _ | ⟨l0, _ | ⟨l1, _ | ⟨l2, _ | ⟨l3, _ | ⟨t0, _ | ⟨t1, _ | ⟨t2, _ | ⟨t3, rest⟩⟩⟩⟩⟩⟩⟩⟩ <;>
    first
    | (exfalso; simp [Chunk.tryFrom] at hok; done)
    | skip
  simp only [Chunk.tryFrom] at hok
  have hl0 : l0 < 256 := h256 _ (by simp)
  have hl1 : l1 < 256 := h256 _ (by simp)
  have hl2 : l2 < 256 := h256 _ (by simp)
  have hl3 : l3 < 256 := h256 _ (by simp)
  have hlenlt : u32FromBe l0 l1 l2 l3 < 4294967296 := u32FromBe_lt hl0 hl1 hl2 hl3
  split at hok
  · exact absurd hok (by simp)
  next hge =>
    split at hok
    · exact absurd hok (by simp)
    next hleneq =>
      split at hok
      next herr => exact absurd hok (by simp)
      next ct hct =>
        split at hok
        next => exact absurd hok (by simp)
        next hcrc =>
          injection hok with hok
          subst hok
          rw [not_ne_iff] at hcrc hleneq
          simp only [List.length_cons] at hge hleneq
          have hnowrap : 12 + u32FromBe l0 l1 l2 l3 < 4294967296 := by omega
          have hrest : rest.length = 4 + u32FromBe l0 l1 l2 l3 := by omega
          have hctv : ChunkType.is_bytes_all_ascii ⟨t0, t1, t2, t3⟩ = true ∧
              ct = ⟨⟨t0, t1, t2, t3⟩⟩ := by
            unfold ChunkType.tryFrom at hct
            split at hct
            · exact absurd hct (by simp)
            next h =>
              refine ⟨by simpa using h, ?_⟩
              injection hct with h2
              exact h2.symm
          obtain ⟨hascii, rfl⟩ := hctv
          have htake_len : (rest.take (u32FromBe l0 l1 l2 l3)).length =
              u32FromBe l0 l1 l2 l3 := by
            rw [List.length_take]; omega
          have hdrop_len : (rest.drop (u32FromBe l0 l1 l2 l3)).length = 4 := by
            rw [List.length_drop]; omega
          have hcb := list_eq_four hdrop_len
          have hrest256 : ∀ x ∈ rest, x < 256 := fun x hx => h256 x (by simp [hx])
          have hdata256 : ∀ x ∈ rest.take (u32FromBe l0 l1 l2 l3), x < 256 :=
            fun x hx => hrest256 x (List.take_subset _ _ hx)
          have hcb0 : (rest.drop (u32FromBe l0 l1 l2 l3)).getD 0 0 < 256 :=
            hrest256 _ (List.drop_subset _ _ (by rw [hcb]; simp))
          have hcb1 : (rest.drop (u32FromBe l0 l1 l2 l3)).getD 1 0 < 256 :=
            hrest256 _ (List.drop_subset _ _ (by rw [hcb]; simp))
          have hcb2 : (rest.drop (u32FromBe l0 l1 l2 l3)).getD 2 0 < 256 :=
            hrest256 _ (List.drop_subset _ _ (by rw [hcb]; simp))
          have hcb3 : (rest.drop (u32FromBe l0 l1 l2 l3)).getD 3 0 < 256 :=
            hrest256 _ (List.drop_subset _ _ (by rw [hcb]; simp))
          have hcrclt : u32FromBe ((rest.drop (u32FromBe l0 l1 l2 l3)).getD 0 0)
              ((rest.drop (u32FromBe l0 l1 l2 l3)).getD 1 0)
              ((rest.drop (u32FromBe l0 l1 l2 l3)).getD 2 0)
              ((rest.drop (u32FromBe l0 l1 l2 l3)).getD 3 0) < 4294967296 :=
            u32FromBe_lt hcb0 hcb1 hcb2 hcb3
          refine ⟨?_, by simpa using htake_len.symm, by simpa [htake_len] using hnowrap,
            by simpa using hascii, by simpa using hcrc, hdata256, hcrclt⟩
          show _ = Chunk.as_bytes _
          unfold Chunk.as_bytes
          simp only [ChunkType.bytes, Bytes4.toList]
          rw [u32beBytes_u32FromBe hl0 hl1 hl2 hl3,
            u32beBytes_u32FromBe hcb0 hcb1 hcb2 hcb3]
          rw [← hcb]
          simp [List.take_append_drop]

end Pngme

deriving instance DecidableEq for Except

namespace Pngme

theorem isValidUtf8_of_le127 {l : List Nat} (h : ∀ x ∈ l, x ≤ 127) :
    isValidUtf8 l = true := by
  unfold isValidUtf8
  induction l with
  | nil => rfl
  | cons b t ih =>
    have hb : b ≤ 127 := h b (by simp)
    rw [utf8Run, utf8Start, if_pos hb]
    exact ih (fun x hx => h x (by simp [hx]))

theorem append_cons_split {α : Type} {xs ys pre suf : List α} {b : α}
    (h : xs ++ ys = pre ++ b :: suf) (hlt : pre.length < xs.length) :
    ∃ mid, xs = pre ++ b :: mid ∧ suf = mid ++ ys := by
  induction pre generalizing xs with
  | nil =>
    rcases xs with _ | ⟨x, xs'⟩
    · simp at hlt
    · simp only [List.cons_append, List.nil_append] at h
      injection h with h1 h2
      subst h1
      exact ⟨xs', by simp, h2.symm⟩
  | cons p pre' ih =>
    rcases xs with _ | ⟨x, xs'⟩
    · simp at hlt
    · simp only [List.cons_append] at h
      injection h with h1 h2
      subst h1
      obtain ⟨mid, hm1, hm2⟩ := ih h2 (by simpa using Nat.lt_of_succ_lt_succ hlt)
      exact ⟨mid, by simp [hm1], hm2⟩

/-- The 42 payload bytes of the source's canonical test vector
(`"This is where your secret message will be!"`). -/
def testMessage : List Nat :=
  [84, 104, 105, 115, 32, 105, 115, 32, 119, 104, 101, 114, 101, 32, 121, 111,
   117, 114, 32, 115, 101, 99, 114, 101, 116, 32, 109, 101, 115, 115, 97, 103,
   101, 32, 119, 105, 108, 108, 32, 98, 101, 33]

/-- The canonical serialized test record: length 42, tag `RuSt`, the test
message, and a given stored checksum. -/
def testRecord (crc : Nat) : List Nat :=
  u32beBytes 42 ++ [82, 117, 83, 116] ++ testMessage ++ u32beBytes crc

theorem crc32_testMessage : crc32 ([82, 117, 83, 116] ++ testMessage) = 2882656334 := by
  have e : [82, 117, 83, 116] ++ testMessage =
      [82, 117, 83, 116, 84, 104] ++ ([105, 115, 32, 105, 115, 32] ++
      ([119, 104, 101, 114, 101, 32] ++ ([121, 111, 117, 114, 32, 115] ++
      ([101, 99, 114, 101, 116, 32] ++ ([109, 101, 115, 115, 97, 103] ++
      ([101, 32, 119, 105, 108, 108] ++ [32, 98, 101, 33])))))) := by decide
  have h1 : List.foldl crc32Update 4294967295 [82, 117, 83, 116, 84, 104] =
      699894245 := by decide
  have h2 : List.foldl crc32Update 699894245 [105, 115, 32, 105, 115, 32] =
      76006015 := by decide
  have h3 : List.foldl crc32Update 76006015 [119, 104, 101, 114, 101, 32] =
      3643418401 := by decide
  have h4 : List.foldl crc32Update 3643418401 [121, 111, 117, 114, 32, 115] =
      2459250755 := by decide
  have h5 : List.foldl crc32Update 2459250755 [101, 99, 114, 101, 116, 32] =
      626578398 := by decide
  have h6 : List.foldl crc32Update 626578398 [109, 101, 115, 115, 97, 103] =
      3018541135 := by decide
  have h7 : List.foldl crc32Update 3018541135 [101, 32, 119, 105, 108, 108] =
      4122082814 := by decide
  have h8 : List.foldl crc32Update 4122082814 [32, 98, 101, 33] =
      1412310961 := by decide
  unfold crc32
  rw [e, List.foldl_append, h1, List.foldl_append, h2, List.foldl_append, h3,
    List.foldl_append, h4, List.foldl_append, h5, List.foldl_append, h6,
    List.foldl_append, h7, h8]
  decide

end Pngme

namespace Pngme

theorem is_bytes_all_ascii_iff (v : Bytes4) :
    ChunkType.is_bytes_all_ascii v = true ↔
      (((65 ≤ v.b0 ∧ v.b0 ≤ 90) ∨ (97 ≤ v.b0 ∧ v.b0 ≤ 122)) ∧
       ((65 ≤ v.b1 ∧ v.b1 ≤ 90) ∨ (97 ≤ v.b1 ∧ v.b1 ≤ 122)) ∧
       ((65 ≤ v.b2 ∧ v.b2 ≤ 90) ∨ (97 ≤ v.b2 ∧ v.b2 ≤ 122)) ∧
       ((65 ≤ v.b3 ∧ v.b3 ≤ 90) ∨ (97 ≤ v.b3 ∧ v.b3 ≤ 122))) := by
  rcases v with ⟨a, b, c, d⟩
  simp [ChunkType.is_bytes_all_ascii, Bytes4.toList]

theorem ascii_toList_lt256 {v : Bytes4} (h : ChunkType.is_bytes_all_ascii v = true) :
    ∀ x ∈ v.toList, x < 256 := by
  rw [is_bytes_all_ascii_iff] at h
  rcases v with ⟨a, b, c, d⟩
  intro x hx
  simp [Bytes4.toList] at hx
  rcases hx with rfl | rfl | rfl | rfl <;> simp at h ⊢ <;> omega

/-- C3: construction of a tag from a 4-byte array succeeds exactly when every
byte is an ASCII letter; the reserved bit never blocks construction, shown by
the tag `Rust` (bit 5 of byte 2 set) which constructs fine yet reports an
invalid reserved bit. -/
theorem c3_tag_validity_partition :
    (∀ v : Bytes4, (∃ t, ChunkType.tryFrom v = .ok t) ↔
      (((65 ≤ v.b0 ∧ v.b0 ≤ 90) ∨ (97 ≤ v.b0 ∧ v.b0 ≤ 122)) ∧
       ((65 ≤ v.b1 ∧ v.b1 ≤ 90) ∨ (97 ≤ v.b1 ∧ v.b1 ≤ 122)) ∧
       ((65 ≤ v.b2 ∧ v.b2 ≤ 90) ∨ (97 ≤ v.b2 ∧ v.b2 ≤ 122)) ∧
       ((65 ≤ v.b3 ∧ v.b3 ≤ 90) ∨ (97 ≤ v.b3 ∧ v.b3 ≤ 122)))) ∧
    ChunkType.tryFrom ⟨82, 117, 115, 116⟩ = .ok ⟨⟨82, 117, 115, 116⟩⟩ ∧
    ChunkType.is_reserved_bit_valid ⟨⟨82, 117, 115, 116⟩⟩ = false := by
  refine ⟨fun v => ?_, by decide, by decide⟩
  rw [← is_bytes_all_ascii_iff]
  unfold ChunkType.tryFrom
  constructor
  · rintro ⟨t, ht⟩
    by_contra hno
    rw [if_pos (by simp [Bool.not_eq_true] at hno; simp [hno])] at ht
    exact absurd ht (by simp)
  · intro hyes
    exact ⟨⟨v⟩, by rw [if_neg (by simp [hyes])]⟩

/-- C6: the text constructor delegates to the byte constructor for 4-byte
strings, but on any other length the source's `try_into().unwrap()` panics
(modelled as `none`) instead of returning an error, shown at the 2-byte
input `Ru`. -/
theorem c6_from_str_length_behavior :
    ChunkType.from_str [82, 117] = none ∧
    (∀ a b c d : Nat,
      ChunkType.from_str [a, b, c, d] = some (ChunkType.tryFrom ⟨a, b, c, d⟩)) :=
  ⟨rfl, fun _ _ _ _ => rfl⟩

/-- C8: the four derived tag properties are pure bit-5 tests on the stored
bytes (critical: byte 0 clear; public: byte 1 clear; reserved-bit-valid:
byte 2 clear; safe-to-copy: byte 3 set), and full validity is the ASCII
letter property together with the reserved bit. -/
theorem c8_flag_queries (t : ChunkType) :
    (ChunkType.is_critical t = true ↔ t.value.b0.testBit 5 = false) ∧
    (ChunkType.is_public t = true ↔ t.value.b1.testBit 5 = false) ∧
    (ChunkType.is_reserved_bit_valid t = true ↔ t.value.b2.testBit 5 = false) ∧
    (ChunkType.is_safe_to_copy t = true ↔ t.value.b3.testBit 5 = true) ∧
    (ChunkType.is_valid t = true ↔
      ((((65 ≤ t.value.b0 ∧ t.value.b0 ≤ 90) ∨ (97 ≤ t.value.b0 ∧ t.value.b0 ≤ 122)) ∧
        ((65 ≤ t.value.b1 ∧ t.value.b1 ≤ 90) ∨ (97 ≤ t.value.b1 ∧ t.value.b1 ≤ 122)) ∧
        ((65 ≤ t.value.b2 ∧ t.value.b2 ≤ 90) ∨ (97 ≤ t.value.b2 ∧ t.value.b2 ≤ 122)) ∧
        ((65 ≤ t.value.b3 ∧ t.value.b3 ≤ 90) ∨ (97 ≤ t.value.b3 ∧ t.value.b3 ≤ 122))) ∧
       t.value.b2.testBit 5 = false)) := by
  have key : ∀ b : Nat, ((b &&& (1 <<< 5)) == 0) = true ↔ b.testBit 5 = false := by
    intro b
    have h32 : (1 <<< 5 : Nat) = 2 ^ 5 := by decide
    rw [h32, Nat.and_two_pow]
    cases hb : b.testBit 5 <;> simp [hb]
  have keyTrue : ∀ b : Nat, ((b &&& (1 <<< 5)) != 0) = true ↔ b.testBit 5 = true := by
    intro b
    have h32 : (1 <<< 5 : Nat) = 2 ^ 5 := by decide
    rw [h32, Nat.and_two_pow]
    cases hb : b.testBit 5 <;> simp [hb]
  refine ⟨key _, key _, key _, keyTrue _, ?_⟩
  unfold ChunkType.is_valid ChunkType.is_bytes_reserved_bit_valid
  rw [Bool.and_eq_true]
  rw [is_bytes_all_ascii_iff]
  constructor
  · rintro ⟨h1, h2⟩
    exact ⟨h1, (key _).mp h2⟩
  · rintro ⟨h1, h2⟩
    exact ⟨h1, (key _).mpr h2⟩

/-- C9: rendering a successfully constructed tag never panics: the bytes
passed the ASCII-letter gate, hence are valid UTF-8, and the rendered text is
exactly the 4 stored bytes. -/
theorem c9_display_total {v : Bytes4} {t : ChunkType}
    (h : ChunkType.tryFrom v = .ok t) :
    ChunkType.display t = some t.value.toList := by
  unfold ChunkType.tryFrom at h
  split at h
  · exact absurd h (by simp)
  next hascii =>
    injection h with h
    subst h
    have ha : ChunkType.is_bytes_all_ascii v = true := by simpa using hascii
    have hle : ∀ x ∈ (Bytes4.toList v), x ≤ 127 := by
      rw [is_bytes_all_ascii_iff] at ha
      rcases v with ⟨a, b, c, d⟩
      intro x hx
      simp [Bytes4.toList] at hx
      rcases hx with rfl | rfl | rfl | rfl <;> simp at ha ⊢ <;> omega
    unfold ChunkType.display
    rw [if_pos (isValidUtf8_of_le127 hle)]

/-- Witness for C9 at the tag `RuSt`. -/
theorem c9_display_total_witness :
    ChunkType.display ⟨⟨82, 117, 83, 116⟩⟩ = some (Bytes4.toList ⟨82, 117, 83, 116⟩) :=
  c9_display_total (v := ⟨82, 117, 83, 116⟩) (by decide)

/-- C10: reading the payload as text fails exactly on non-UTF-8 payloads and
changes nothing, but the chunk `Display` implementation unwraps it, so
formatting a chunk whose payload is the single byte 255 (freely constructed
by `Chunk::new`) panics (modelled as `none`). -/
theorem c10_display_unwrap_panics :
    (∀ c : Chunk, (∃ e, c.data_as_string = .error e) ↔ isValidUtf8 c.data = false) ∧
    (∀ c : Chunk, isValidUtf8 c.data = true → c.data_as_string = .ok c.data) ∧
    Chunk.display (Chunk.new ⟨⟨82, 117, 83, 116⟩⟩ [255]) = none := by
  refine ⟨fun c => ?_, fun c h => ?_, rfl⟩
  · unfold Chunk.data_as_string
    cases hv : isValidUtf8 c.data <;> simp [hv]
  · unfold Chunk.data_as_string
    rw [if_pos h]

end Pngme

namespace Pngme

theorem tryFrom_short {value : List Nat} (h : value.length < 12) :
    Chunk.tryFrom value = .error .insufficientBytes := by
  rcases value with _ | ⟨a1, _ | ⟨a2, _ | ⟨a3, _ | ⟨a4, _ | ⟨a5, _ | ⟨a6, _ | ⟨a7, _ | ⟨a8, _ | ⟨a9, _ | ⟨a10, _ | ⟨a11, _ | ⟨a12, rest⟩⟩⟩⟩⟩⟩⟩⟩⟩⟩⟩⟩ <;>
    first
    | rfl
    | (exfalso; simp only [List.length_cons] at h; omega)

theorem tryFrom_length_mismatch {value : List Nat} (h256 : ∀ x ∈ value, x < 256)
    (hge : 12 ≤ value.length)
    (hne : value.length ≠ 12 + u32FromBe (value.getD 0 0) (value.getD 1 0)
      (value.getD 2 0) (value.getD 3 0)) :
    Chunk.tryFrom value = .error .lengthMismatch := by
  rcases value with _ | ⟨l0, _ | ⟨l1, _ | ⟨l2, _ | ⟨l3, _ | ⟨t0, _ | ⟨t1, _ | ⟨t2, _ | ⟨t3, rest⟩⟩⟩⟩⟩⟩⟩⟩ <;>
    first
    | (exfalso; simp at hge; done)
    | skip
  have hl0 : l0 < 256 := h256 _ (by simp)
  have hl1 : l1 < 256 := h256 _ (by simp)
  have hl2 : l2 < 256 := h256 _ (by simp)
  have hl3 : l3 < 256 := h256 _ (by simp)
  have hlt : u32FromBe l0 l1 l2 l3 < 4294967296 := u32FromBe_lt hl0 hl1 hl2 hl3
  simp only [List.getD_cons_zero, List.getD_cons_succ] at hne
  simp only [List.length_cons] at hge hne
  simp only [Chunk.tryFrom]
  rw [if_neg (by simp only [List.length_cons]; omega)]
  rw [if_pos (by simp only [List.length_cons]; omega)]

/-- C5 (amended): parsing a slice shorter than 12 bytes returns the
insufficient-bytes error rather than panicking, and for slices of fewer than
`2^32` bytes — larger ones panic at the entry conversion of the slice length
to `u32` — a total length that is not exactly `12 +` the declared big-endian
length field returns the length-mismatch error, rejecting truncation and
trailing garbage alike. -/
theorem c5_length_errors :
    (∀ value : List Nat, value.length < 12 →
      Chunk.try_from value = some (.error .insufficientBytes)) ∧
    (∀ value : List Nat, (∀ x ∈ value, x < 256) → 12 ≤ value.length →
      value.length < 4294967296 →
      value.length ≠ 12 + u32FromBe (value.getD 0 0) (value.getD 1 0)
        (value.getD 2 0) (value.getD 3 0) →
      Chunk.try_from value = some (.error .lengthMismatch)) := by
  constructor
  · intro value h
    unfold Chunk.try_from
    rw [if_pos (by omega), tryFrom_short h]
  · intro value h256 hge hlt hne
    unfold Chunk.try_from
    rw [if_pos hlt, tryFrom_length_mismatch h256 hge hne]

/-- Witness for C5: a 10-byte buffer gives the insufficient-bytes error and a
20-byte all-zero buffer (declared length 0) gives the length-mismatch error. -/
theorem c5_length_errors_witness :
    Chunk.try_from (List.replicate 10 0) = some (.error .insufficientBytes) ∧
    Chunk.try_from (List.replicate 20 0) = some (.error .lengthMismatch) :=
  ⟨c5_length_errors.1 (List.replicate 10 0) (by decide),
   c5_length_errors.2 (List.replicate 20 0) (by decide) (by decide) (by decide)
     (by decide)⟩

/-- Counterexample to C5 as stated: a slice of `2^32` zero bytes has total
length different from `12 +` its declared length field (which reads 0), yet
parsing does not return the length-mismatch error: the entry conversion of
the slice length to `u32` panics (modelled as `none`) before any check
runs. -/
theorem c5_length_errors_counterexample :
    (List.replicate 4294967296 (0 : Nat)).length ≠
      12 + u32FromBe ((List.replicate 4294967296 (0 : Nat)).getD 0 0)
        ((List.replicate 4294967296 (0 : Nat)).getD 1 0)
        ((List.replicate 4294967296 (0 : Nat)).getD 2 0)
        ((List.replicate 4294967296 (0 : Nat)).getD 3 0) ∧
    Chunk.try_from (List.replicate 4294967296 (0 : Nat)) = none := by
  constructor
  · rw [List.length_replicate,
      show (List.replicate 4294967296 (0 : Nat)).getD 0 0 = 0 from rfl,
      show (List.replicate 4294967296 (0 : Nat)).getD 1 0 = 0 from rfl,
      show (List.replicate 4294967296 (0 : Nat)).getD 2 0 = 0 from rfl,
      show (List.replicate 4294967296 (0 : Nat)).getD 3 0 = 0 from rfl]
    norm_num [u32FromBe]
  · unfold Chunk.try_from
    rw [List.length_replicate, if_neg (by norm_num)]

/-- C2: both constructors establish the invariants: the stored checksum is
CRC-32 over tag bytes ++ payload bytes (the length field is not part of the
CRC input), and the stored length is the payload byte count. -/
theorem c2_invariants :
    (∀ (ct : ChunkType) (data : List Nat),
      (Chunk.new ct data).crc = crc32 (ct.bytes.toList ++ data) ∧
      (Chunk.new ct data).length = (Chunk.new ct data).data.length) ∧
    (∀ (value : List Nat) (c : Chunk), (∀ x ∈ value, x < 256) →
      Chunk.tryFrom value = .ok c →
      c.crc = crc32 (c.chunk_type.bytes.toList ++ c.data) ∧
      c.length = c.data.length) := by
  refine ⟨fun ct data => ⟨rfl, rfl⟩, fun value c h256 hok => ?_⟩
  obtain ⟨-, h2, -, -, h5, -, -⟩ := tryFrom_ok_inv h256 hok
  exact ⟨h5.symm, h2⟩

/-- Witness for C2 on the parsing side, at the 16-byte empty-payload record
with tag `RuSt`. -/
theorem c2_invariants_witness :
    (⟨0, ⟨⟨82, 117, 83, 116⟩⟩, [], 3565422908⟩ : Chunk).crc =
      crc32 ((⟨0, ⟨⟨82, 117, 83, 116⟩⟩, [], 3565422908⟩ : Chunk).chunk_type.bytes.toList ++
        (⟨0, ⟨⟨82, 117, 83, 116⟩⟩, [], 3565422908⟩ : Chunk).data) ∧
    (⟨0, ⟨⟨82, 117, 83, 116⟩⟩, [], 3565422908⟩ : Chunk).length =
      (⟨0, ⟨⟨82, 117, 83, 116⟩⟩, [], 3565422908⟩ : Chunk).data.length :=
  c2_invariants.2 [0, 0, 0, 0, 82, 117, 83, 116, 212, 132, 9, 60]
    ⟨0, ⟨⟨82, 117, 83, 116⟩⟩, [], 3565422908⟩ (by decide) (by decide)

end Pngme

namespace Pngme

theorem u32FromBe_getD_u32beBytes {n : Nat} (h : n < 4294967296) :
    u32FromBe ((u32beBytes n).getD 0 0) ((u32beBytes n).getD 1 0)
      ((u32beBytes n).getD 2 0) ((u32beBytes n).getD 3 0) = n :=
  u32FromBe_u32beBytes h

theorem tryFrom_testRecord_good :
    Chunk.tryFrom (testRecord 2882656334) =
      .ok ⟨42, ⟨⟨82, 117, 83, 116⟩⟩, testMessage, 2882656334⟩ := by
  have e : testRecord 2882656334 =
      u32beBytes testMessage.length ++ Bytes4.toList ⟨82, 117, 83, 116⟩ ++
        testMessage ++ u32beBytes 2882656334 := rfl
  rw [e, tryFrom_shape _ _ _ (u32beBytes_length _) (by decide)]
  rw [if_pos (by decide)]
  rw [if_neg (by
    rw [not_ne_iff, u32FromBe_getD_u32beBytes (by norm_num)]
    rw [show Bytes4.toList ⟨82, 117, 83, 116⟩ = [82, 117, 83, 116] from rfl,
      crc32_testMessage])]
  rw [u32FromBe_getD_u32beBytes (by norm_num)]
  decide

theorem tryFrom_testRecord_bad :
    Chunk.tryFrom (testRecord 2882656333) = .error .checksumMismatch := by
  have e : testRecord 2882656333 =
      u32beBytes testMessage.length ++ Bytes4.toList ⟨82, 117, 83, 116⟩ ++
        testMessage ++ u32beBytes 2882656333 := rfl
  rw [e, tryFrom_shape _ _ _ (u32beBytes_length _) (by decide)]
  rw [if_pos (by decide)]
  rw [if_pos (by
    rw [u32FromBe_getD_u32beBytes (by norm_num)]
    rw [show Bytes4.toList ⟨82, 117, 83, 116⟩ = [82, 117, 83, 116] from rfl,
      crc32_testMessage]
    decide)]

/-- C4: whenever a well-formed record (consistent length field, ASCII tag)
carries a stored checksum different from CRC-32 over tag ++ payload, parsing
fails with the checksum-mismatch error; concretely the canonical record
(length 42, tag `RuSt`, the secret message, checksum 2882656334) parses
successfully while the same record with checksum 2882656333 is rejected. -/
theorem c4_checksum_mismatch_gate :
    (∀ (tb : Bytes4) (data cb : List Nat), cb.length = 4 →
      12 + data.length < 4294967296 →
      ChunkType.is_bytes_all_ascii tb = true →
      crc32 (tb.toList ++ data) ≠
        u32FromBe (cb.getD 0 0) (cb.getD 1 0) (cb.getD 2 0) (cb.getD 3 0) →
      Chunk.tryFrom (u32beBytes data.length ++ tb.toList ++ data ++ cb) =
        .error .checksumMismatch) ∧
    Chunk.tryFrom (testRecord 2882656334) =
      .ok ⟨42, ⟨⟨82, 117, 83, 116⟩⟩, testMessage, 2882656334⟩ ∧
    Chunk.tryFrom (testRecord 2882656333) = .error .checksumMismatch := by
  refine ⟨fun tb data cb hcb hlen hascii hcrc => ?_,
    tryFrom_testRecord_good, tryFrom_testRecord_bad⟩
  rw [tryFrom_shape tb data cb hcb hlen, if_pos hascii, if_pos hcrc]

/-- Witness for C4 at an empty-payload record with tag `RuSt` and stored
checksum 0. -/
theorem c4_checksum_mismatch_gate_witness :
    Chunk.tryFrom (u32beBytes (List.length ([] : List Nat)) ++
      Bytes4.toList ⟨82, 117, 83, 116⟩ ++ ([] : List Nat) ++ [0, 0, 0, 0]) =
      .error .checksumMismatch :=
  c4_checksum_mismatch_gate.1 ⟨82, 117, 83, 116⟩ [] [0, 0, 0, 0]
    (by decide) (by decide) (by decide) (by decide)

theorem as_bytes_new (ct : ChunkType) (data : List Nat) :
    (Chunk.new ct data).as_bytes =
      u32beBytes data.length ++ Bytes4.toList ct.value ++ data ++
        u32beBytes (crc32 (Bytes4.toList ct.value ++ data)) := rfl

/-- C1 (amended): for a payload whose byte count is at most `2^32 - 13` (so
that the 12-byte framing still fits in `u32`), serializing a constructed
chunk and re-parsing yields exactly the same chunk, and the serialization
has exactly `12 + length` bytes. -/
theorem c1_round_trip (ct : ChunkType) (data : List Nat)
    (hascii : ChunkType.is_bytes_all_ascii ct.value = true)
    (h256 : ∀ x ∈ data, x < 256)
    (hlen : 12 + data.length < 4294967296) :
    Chunk.tryFrom (Chunk.new ct data).as_bytes = .ok (Chunk.new ct data) ∧
    (Chunk.new ct data).as_bytes.length = 12 + (Chunk.new ct data).length := by
  have hbytes : ∀ x ∈ Bytes4.toList ct.value ++ data, x < 4294967296 := by
    intro x hx
    rcases List.mem_append.mp hx with h | h
    · exact lt_trans (ascii_toList_lt256 hascii x h) (by norm_num)
    · exact lt_trans (h256 x h) (by norm_num)
  have hcrclt : crc32 (Bytes4.toList ct.value ++ data) < 4294967296 := crc32_lt hbytes
  have e : (Chunk.new ct data).as_bytes =
      u32beBytes data.length ++ Bytes4.toList ct.value ++ data ++
        u32beBytes (crc32 (Bytes4.toList ct.value ++ data)) := rfl
  constructor
  · rw [e, tryFrom_shape _ _ _ (u32beBytes_length _) hlen, if_pos hascii]
    rw [if_neg (by rw [not_ne_iff, u32FromBe_getD_u32beBytes hcrclt])]
    rw [u32FromBe_getD_u32beBytes hcrclt]
    rfl
  · rw [e]
    simp only [List.length_append, u32beBytes, Bytes4.toList, List.length_cons,
      List.length_nil, Chunk.new]
    omega

/-- Witness for C1 at tag `RuSt` with an empty payload. -/
theorem c1_round_trip_witness :
    Chunk.tryFrom (Chunk.new ⟨⟨82, 117, 83, 116⟩⟩ []).as_bytes =
      .ok (Chunk.new ⟨⟨82, 117, 83, 116⟩⟩ []) ∧
    (Chunk.new ⟨⟨82, 117, 83, 116⟩⟩ []).as_bytes.length =
      12 + (Chunk.new ⟨⟨82, 117, 83, 116⟩⟩ []).length :=
  c1_round_trip ⟨⟨82, 117, 83, 116⟩⟩ [] (by decide) (by decide) (by decide)

theorem toList_length (v : Bytes4) : v.toList.length = 4 := rfl

/-- Counterexample to C1 as stated: a payload of `2^32 - 12` bytes fits in
`u32`, yet parsing the serialization of the constructed chunk does not
succeed: the serialized record holds exactly `2^32` bytes, so `try_from`
panics (modelled as `none`) converting the slice length to `u32` before any
field is read. -/
theorem c1_round_trip_counterexample :
    (List.replicate 4294967284 (0 : Nat)).length < 4294967296 ∧
    Chunk.try_from (Chunk.new ⟨⟨82, 117, 83, 116⟩⟩
        (List.replicate 4294967284 (0 : Nat))).as_bytes = none := by
  constructor
  · rw [List.length_replicate]
    norm_num
  · have hlen : (Chunk.new ⟨⟨82, 117, 83, 116⟩⟩
        (List.replicate 4294967284 (0 : Nat))).as_bytes.length = 4294967296 := by
      rw [as_bytes_new, List.length_append, List.length_append,
        List.length_append, u32beBytes_length, u32beBytes_length, toList_length,
        List.length_replicate]
    unfold Chunk.try_from
    rw [hlen, if_neg (by norm_num)]

end Pngme

namespace Pngme

theorem xor_lt256 {a : Nat} (ha : a < 256) {j : Nat} (hj : j < 8) :
    a ^^^ 2 ^ j < 256 := by
  have h8 : (256 : Nat) = 2 ^ 8 := by norm_num
  have hp : 2 ^ j < 2 ^ 8 := Nat.pow_lt_pow_right (by norm_num) hj
  rw [h8] at ha ⊢
  exact Nat.xor_lt_two_pow ha hp

theorem xor_two_pow_ne (a j : Nat) : a ^^^ 2 ^ j ≠ a := by
  intro h
  have h0 : a ^^^ 2 ^ j = a ^^^ 0 := by simpa using h
  have := xor_left_cancel h0
  exact absurd this (Nat.pos_iff_ne_zero.mp (Nat.pos_pow_of_pos j (by norm_num)))

theorem append_split_right {α : Type} {xs ys pre suf : List α} {b : α}
    (h : xs ++ ys = pre ++ b :: suf) (hge : xs.length ≤ pre.length) :
    ∃ mid, pre = xs ++ mid ∧ ys = mid ++ b :: suf := by
  induction xs generalizing pre with
  | nil => exact ⟨pre, rfl, h⟩
  | cons x xs' ih =>
    rcases pre with _ | ⟨p, pre2⟩
    · simp at hge
    · simp only [List.cons_append] at h
      injection h with h1 h2
      subst h1
      obtain ⟨mid, hp, hy⟩ := ih h2 (by simpa using Nat.le_of_succ_le_succ hge)
      exact ⟨mid, by simp [hp], hy⟩

theorem list_head4 {l : List Nat} (h : 4 ≤ l.length) :
    l = l.getD 0 0 :: l.getD 1 0 :: l.getD 2 0 :: l.getD 3 0 :: l.drop 4 := by
  rcases l with _ | ⟨a, _ | ⟨b, _ | ⟨c, _ | ⟨d, t⟩⟩⟩⟩ <;> simp at h ⊢

end Pngme

namespace Pngme

/-- C7 (amended): flipping one bit of a valid serialized record inside the
tag or payload region, keeping the stored length and checksum, makes the
parse fail: with the checksum-mismatch error whenever the four tag bytes of
the flipped record still pass the ASCII-letter gate (always the case for
payload flips), and with the earlier tag-validity error otherwise. -/
theorem c7_bit_flip_rejected (value pre suf : List Nat) (c : Chunk) (b k : Nat)
    (h256 : ∀ x ∈ value, x < 256)
    (hok : Chunk.tryFrom value = .ok c)
    (hsplit : value = pre ++ b :: suf)
    (hk : k < 8)
    (hlo : 4 ≤ pre.length)
    (hhi : pre.length < 8 + c.data.length) :
    (ChunkType.is_bytes_all_ascii
        ⟨(pre ++ (b ^^^ 2 ^ k) :: suf).getD 4 0, (pre ++ (b ^^^ 2 ^ k) :: suf).getD 5 0,
         (pre ++ (b ^^^ 2 ^ k) :: suf).getD 6 0,
         (pre ++ (b ^^^ 2 ^ k) :: suf).getD 7 0⟩ = true →
      Chunk.tryFrom (pre ++ (b ^^^ 2 ^ k) :: suf) = .error .checksumMismatch) ∧
    (ChunkType.is_bytes_all_ascii
        ⟨(pre ++ (b ^^^ 2 ^ k) :: suf).getD 4 0, (pre ++ (b ^^^ 2 ^ k) :: suf).getD 5 0,
         (pre ++ (b ^^^ 2 ^ k) :: suf).getD 6 0,
         (pre ++ (b ^^^ 2 ^ k) :: suf).getD 7 0⟩ = false →
      Chunk.tryFrom (pre ++ (b ^^^ 2 ^ k) :: suf) = .error .invalidChunkType) := by
  obtain ⟨hval, hlen_eq, hfit, hascii, hcrc, hd256, hcrclt⟩ := tryFrom_ok_inv h256 hok
  have hassoc : u32beBytes c.length ++
      ((c.chunk_type.bytes.toList ++ c.data) ++ u32beBytes c.crc) = pre ++ b :: suf := by
    rw [← hsplit, hval]
    simp [Chunk.as_bytes, List.append_assoc]
  obtain ⟨pre2, hpre2, hrest⟩ := append_split_right hassoc
    (by simpa [u32beBytes] using hlo)
  have hpre2len : pre.length = 4 + pre2.length := by
    rw [hpre2]; simp [u32beBytes]; omega
  have htl4 : (c.chunk_type.bytes.toList).length = 4 := by
    rcases c.chunk_type.value with ⟨a0, a1, a2, a3⟩; rfl
  obtain ⟨mid, hmid, hsuf⟩ := append_cons_split hrest
    (by simp [List.length_append, htl4]; omega)
  have hble : b < 256 := h256 b (by rw [hsplit]; simp)
  have hb'lt : b ^^^ 2 ^ k < 256 := xor_lt256 hble hk
  have hbne : b ^^^ 2 ^ k ≠ b := xor_two_pow_ne b k
  have hcilen : (pre2 ++ (b ^^^ 2 ^ k) :: mid).length = 4 + c.data.length := by
    have h1 := congrArg List.length hmid
    simp only [List.length_append, List.length_cons, htl4] at h1 ⊢
    omega
  have hhead := list_head4 (l := pre2 ++ (b ^^^ 2 ^ k) :: mid) (by omega)
  have hdrop_len : ((pre2 ++ (b ^^^ 2 ^ k) :: mid).drop 4).length = c.data.length := by
    simp only [List.length_drop, hcilen]
    omega
  have hform0 : pre ++ (b ^^^ 2 ^ k) :: suf =
      u32beBytes c.length ++
        ((pre2 ++ (b ^^^ 2 ^ k) :: mid) ++ u32beBytes c.crc) := by
    rw [hpre2, hsuf]
    simp [List.append_assoc]
  have hg4 : (pre ++ (b ^^^ 2 ^ k) :: suf).getD 4 0 =
      (pre2 ++ (b ^^^ 2 ^ k) :: mid).getD 0 0 := by
    rw [hform0, List.getD_append_right _ _ _ _ (by simp [u32beBytes])]
    rw [show 4 - (u32beBytes c.length).length = 0 from by simp [u32beBytes]]
    exact List.getD_append _ _ _ _ (by rw [hcilen]; omega)
  have hg5 : (pre ++ (b ^^^ 2 ^ k) :: suf).getD 5 0 =
      (pre2 ++ (b ^^^ 2 ^ k) :: mid).getD 1 0 := by
    rw [hform0, List.getD_append_right _ _ _ _ (by simp [u32beBytes])]
    rw [show 5 - (u32beBytes c.length).length = 1 from by simp [u32beBytes]]
    exact List.getD_append _ _ _ _ (by rw [hcilen]; omega)
  have hg6 : (pre ++ (b ^^^ 2 ^ k) :: suf).getD 6 0 =
      (pre2 ++ (b ^^^ 2 ^ k) :: mid).getD 2 0 := by
    rw [hform0, List.getD_append_right _ _ _ _ (by simp [u32beBytes])]
    rw [show 6 - (u32beBytes c.length).length = 2 from by simp [u32beBytes]]
    exact List.getD_append _ _ _ _ (by rw [hcilen]; omega)
  have hg7 : (pre ++ (b ^^^ 2 ^ k) :: suf).getD 7 0 =
      (pre2 ++ (b ^^^ 2 ^ k) :: mid).getD 3 0 := by
    rw [hform0, List.getD_append_right _ _ _ _ (by simp [u32beBytes])]
    rw [show 7 - (u32beBytes c.length).length = 3 from by simp [u32beBytes]]
    exact List.getD_append _ _ _ _ (by rw [hcilen]; omega)
  have hform : pre ++ (b ^^^ 2 ^ k) :: suf =
      u32beBytes (((pre2 ++ (b ^^^ 2 ^ k) :: mid).drop 4).length) ++
        Bytes4.toList ⟨(pre2 ++ (b ^^^ 2 ^ k) :: mid).getD 0 0,
          (pre2 ++ (b ^^^ 2 ^ k) :: mid).getD 1 0,
          (pre2 ++ (b ^^^ 2 ^ k) :: mid).getD 2 0,
          (pre2 ++ (b ^^^ 2 ^ k) :: mid).getD 3 0⟩ ++
        ((pre2 ++ (b ^^^ 2 ^ k) :: mid).drop 4) ++ u32beBytes c.crc := by
    rw [hdrop_len, ← hlen_eq, hpre2, hsuf]
    have key : (pre2 ++ (b ^^^ 2 ^ k) :: mid) ++ u32beBytes c.crc =
        Bytes4.toList ⟨(pre2 ++ (b ^^^ 2 ^ k) :: mid).getD 0 0,
          (pre2 ++ (b ^^^ 2 ^ k) :: mid).getD 1 0,
          (pre2 ++ (b ^^^ 2 ^ k) :: mid).getD 2 0,
          (pre2 ++ (b ^^^ 2 ^ k) :: mid).getD 3 0⟩ ++
          (pre2 ++ (b ^^^ 2 ^ k) :: mid).drop 4 ++ u32beBytes c.crc := by
      conv_lhs => rw [hhead]
      simp [Bytes4.toList, List.cons_append, List.append_assoc]
    calc (u32beBytes c.length ++ pre2) ++ (b ^^^ 2 ^ k) :: (mid ++ u32beBytes c.crc)
        = u32beBytes c.length ++
            ((pre2 ++ (b ^^^ 2 ^ k) :: mid) ++ u32beBytes c.crc) := by
          simp [List.append_assoc]
      _ = u32beBytes c.length ++
            (Bytes4.toList ⟨(pre2 ++ (b ^^^ 2 ^ k) :: mid).getD 0 0,
              (pre2 ++ (b ^^^ 2 ^ k) :: mid).getD 1 0,
              (pre2 ++ (b ^^^ 2 ^ k) :: mid).getD 2 0,
              (pre2 ++ (b ^^^ 2 ^ k) :: mid).getD 3 0⟩ ++
              (pre2 ++ (b ^^^ 2 ^ k) :: mid).drop 4 ++ u32beBytes c.crc) := by
          rw [key]
      _ = u32beBytes c.length ++
            Bytes4.toList ⟨(pre2 ++ (b ^^^ 2 ^ k) :: mid).getD 0 0,
              (pre2 ++ (b ^^^ 2 ^ k) :: mid).getD 1 0,
              (pre2 ++ (b ^^^ 2 ^ k) :: mid).getD 2 0,
              (pre2 ++ (b ^^^ 2 ^ k) :: mid).getD 3 0⟩ ++
            (pre2 ++ (b ^^^ 2 ^ k) :: mid).drop 4 ++ u32beBytes c.crc := by
          simp [List.append_assoc]
  have hci_eq : Bytes4.toList ⟨(pre2 ++ (b ^^^ 2 ^ k) :: mid).getD 0 0,
      (pre2 ++ (b ^^^ 2 ^ k) :: mid).getD 1 0,
      (pre2 ++ (b ^^^ 2 ^ k) :: mid).getD 2 0,
      (pre2 ++ (b ^^^ 2 ^ k) :: mid).getD 3 0⟩ ++
      ((pre2 ++ (b ^^^ 2 ^ k) :: mid).drop 4) = pre2 ++ (b ^^^ 2 ^ k) :: mid := by
    conv_rhs => rw [hhead]
    simp [Bytes4.toList]
  have hTLD : ∀ x ∈ c.chunk_type.bytes.toList ++ c.data, x < 4294967296 := by
    intro x hx
    rcases List.mem_append.mp hx with h | h
    · exact lt_trans (ascii_toList_lt256 hascii x h) (by norm_num)
    · exact lt_trans (hd256 x h) (by norm_num)
  have hpre2_lt : ∀ x ∈ pre2, x < 4294967296 := by
    intro x hx
    exact hTLD x (by rw [hmid]; exact List.mem_append_left _ hx)
  have hmid_lt : ∀ x ∈ mid, x < 4294967296 := by
    intro x hx
    exact hTLD x (by rw [hmid]; exact List.mem_append_right _ (by simp [hx]))
  constructor
  · intro hasciiT
    rw [hg4, hg5, hg6, hg7] at hasciiT
    rw [hform, tryFrom_shape _ _ _ (u32beBytes_length _) (by rw [hdrop_len]; exact hfit)]
    rw [if_pos hasciiT]
    rw [if_pos (by
      rw [hci_eq, u32FromBe_getD_u32beBytes hcrclt, ← hcrc, hmid]
      exact @crc32_single_diff pre2 mid (b ^^^ 2 ^ k) b
        (lt_trans hb'lt (by norm_num)) (lt_trans hble (by norm_num)) hbne
        hpre2_lt hmid_lt)]
  · intro hasciiF
    rw [hg4, hg5, hg6, hg7] at hasciiF
    rw [hform, tryFrom_shape _ _ _ (u32beBytes_length _) (by rw [hdrop_len]; exact hfit)]
    rw [if_neg (by rw [hasciiF]; simp)]

end Pngme

namespace Pngme

/-- Counterexample to C7 as stated: in the canonical valid record, flipping
bit 6 of the first tag byte (`R` = 82 becomes 18) keeps length and checksum
fields intact, yet parsing fails with the tag-validity error — not the
checksum-mismatch error the claim promises for every tag-region bit flip —
because the chunk-type ASCII gate runs before the checksum gate. -/
theorem c7_counterexample :
    testRecord 2882656334 =
      [0, 0, 0, 42] ++ 82 :: ([117, 83, 116] ++ testMessage ++ u32beBytes 2882656334) ∧
    Chunk.tryFrom ([0, 0, 0, 42] ++ (82 ^^^ 2 ^ 6) ::
        ([117, 83, 116] ++ testMessage ++ u32beBytes 2882656334)) =
      .error .invalidChunkType ∧
    Chunk.tryFrom (testRecord 2882656334) =
      .ok ⟨42, ⟨⟨82, 117, 83, 116⟩⟩, testMessage, 2882656334⟩ := by
  refine ⟨by decide, ?_, tryFrom_testRecord_good⟩
  have e : [0, 0, 0, 42] ++ (82 ^^^ 2 ^ 6) ::
      ([117, 83, 116] ++ testMessage ++ u32beBytes 2882656334) =
      u32beBytes testMessage.length ++ Bytes4.toList ⟨18, 117, 83, 116⟩ ++
        testMessage ++ u32beBytes 2882656334 := by decide
  rw [e, tryFrom_shape _ _ _ (u32beBytes_length _) (by decide), if_neg (by decide)]

/-- Witness for C7 at the 12-byte empty-payload record with tag `RuSt`,
flipping bit 1 of the first tag byte (`R` = 82 becomes `P` = 80), which keeps
the tag ASCII. -/
theorem c7_bit_flip_rejected_witness :
    Chunk.tryFrom ([0, 0, 0, 0] ++ (82 ^^^ 2 ^ 1) ::
        [117, 83, 116, 212, 132, 9, 60]) = .error .checksumMismatch :=
  (c7_bit_flip_rejected ([0, 0, 0, 0] ++ 82 :: [117, 83, 116, 212, 132, 9, 60])
    [0, 0, 0, 0] [117, 83, 116, 212, 132, 9, 60]
    ⟨0, ⟨⟨82, 117, 83, 116⟩⟩, [], 3565422908⟩ 82 1
    (by decide) (by decide) rfl (by decide) (by decide) (by decide)).1 (by decide)

end Pngme

namespace Pngme

/-- Witness for C10 at a chunk whose payload `[72]` is valid UTF-8. -/
theorem c10_display_unwrap_panics_witness :
    (⟨1, ⟨⟨82, 117, 83, 116⟩⟩, [72], 0⟩ : Chunk).data_as_string = .ok [72] :=
  c10_display_unwrap_panics.2.1 ⟨1, ⟨⟨82, 117, 83, 116⟩⟩, [72], 0⟩ (by decide)

end Pngme
